import Mathlib

/-!
Verification of the pms-proj BFF (backend-for-frontend) core against its
specification: role resolution, the role gate, token verification
configuration, the key-set cache, the bounded-concurrency fan-out
aggregator, and the task status-patch endpoint.

Each definition is a shallow embedding of a function from the Go source
(file and line references in the doc comments); definitions whose deciding
code lives in an external library are modelled from the spec and say so.
-/

namespace PmsProj

/-! ## Role resolver (internal/authmw/keycloak.go) -/

/-- Embedding of the decoded Keycloak claims payload KCClaims
(keycloak.go).  The nested RealmAccess.Roles list is the field realmRoles;
the ResourceAccess map from client identifier to role list is an
association list (a nil Go map behaves as the empty list for lookups). -/
structure KCClaims where
  preferredUsername : String
  email : String
  emailVerified : Bool
  subject : String
  realmRoles : List String
  resourceAccess : List (String × List String)

/-- Embedding of the helper uniq (keycloak.go): walks the input keeping a
set of seen strings, skipping empty strings and duplicates, preserving
first-occurrence order.  The seen set is the second argument. -/
def uniqAux : List String → List String → List String
  | [], _ => []
  | v :: rest, seen =>
    if v = "" then uniqAux rest seen
    else if v ∈ seen then uniqAux rest seen
    else v :: uniqAux rest (v :: seen)

/-- Embedding of uniq (keycloak.go): deduplicate, drop empty strings. -/
def uniq (l : List String) : List String := uniqAux l []

/-- Embedding of collectRoles (keycloak.go): realm roles, then the roles
of the configured client when clientID is nonempty and present in the
resource-access map, passed through uniq. -/
def collectRoles (claims : KCClaims) (clientID : String) : List String :=
  let clientRoles :=
    if clientID ≠ "" then
      match claims.resourceAccess.lookup clientID with
      | some ra => ra
      | none => []
    else []
  uniq (claims.realmRoles ++ clientRoles)

/-- Embedding of hasAnyRole (keycloak.go): the Go code builds a hash set
from userRoles and returns true at the first required role found in it;
membership in that set coincides with list membership, so this is an
any-of scan over the required roles. -/
def hasAnyRole (userRoles : List String) (anyOf : List String) : Bool :=
  anyOf.any (fun required => userRoles.contains required)

theorem mem_uniqAux (r : String) :
    ∀ (l seen : List String), r ∈ uniqAux l seen ↔ r ∈ l ∧ r ≠ "" ∧ r ∉ seen := by
  intro l
  induction l with
  | nil => intro seen; simp [uniqAux]
  | cons v rest ih =>
    intro seen
    unfold uniqAux
    split_ifs with hv hseen
    · subst hv
      rw [ih]
      simp only [List.mem_cons]
      constructor
      · rintro ⟨h1, h2, h3⟩; exact ⟨Or.inr h1, h2, h3⟩
      · rintro ⟨h1, h2, h3⟩
        rcases h1 with h | h
        · exact absurd h h2
        · exact ⟨h, h2, h3⟩
    · rw [ih]
      simp only [List.mem_cons]
      constructor
      · rintro ⟨h1, h2, h3⟩; exact ⟨Or.inr h1, h2, h3⟩
      · rintro ⟨h1, h2, h3⟩
        rcases h1 with h | h
        · subst h; exact absurd hseen h3
        · exact ⟨h, h2, h3⟩
    · rw [List.mem_cons, ih]
      constructor
      · rintro (h | ⟨h1, h2, h3⟩)
        · rw [h]
          exact ⟨List.mem_cons_self v rest, hv, hseen⟩
        · exact ⟨List.mem_cons_of_mem _ h1, h2,
            fun hc => h3 (List.mem_cons_of_mem _ hc)⟩
      · rintro ⟨h1, h2, h3⟩
        by_cases hrv : r = v
        · exact Or.inl hrv
        · rcases List.mem_cons.mp h1 with h | h
          · exact absurd h hrv
          · exact Or.inr ⟨h, h2, fun hc => (List.mem_cons.mp hc).elim hrv h3⟩

theorem nodup_uniqAux : ∀ (l seen : List String), (uniqAux l seen).Nodup := by
  intro l
  induction l with
  | nil => intro seen; simp [uniqAux]
  | cons v rest ih =>
    intro seen
    unfold uniqAux
    split_ifs with hv hseen
    · exact ih seen
    · exact ih seen
    · refine List.nodup_cons.mpr ⟨?_, ih (v :: seen)⟩
      intro hc
      exact ((mem_uniqAux v rest (v :: seen)).mp hc).2.2 (List.mem_cons_self v seen)

theorem mem_uniq (r : String) (l : List String) :
    r ∈ uniq l ↔ r ∈ l ∧ r ≠ "" := by
  unfold uniq
  rw [mem_uniqAux]
  simp

/-- Claim C7: the resolved role set is the union of the realm roles and,
when the client identifier is nonempty and present in the per-client role
map, that clients roles; duplicates collapse, empty strings are dropped,
and membership in the result depends only on membership in the inputs. -/
theorem collectRoles_spec (claims : KCClaims) (clientID : String) :
    (∀ r : String,
      r ∈ collectRoles claims clientID ↔
        r ≠ "" ∧ (r ∈ claims.realmRoles ∨
          (clientID ≠ "" ∧
            ∃ ra, claims.resourceAccess.lookup clientID = some ra ∧ r ∈ ra)))
    ∧ (collectRoles claims clientID).Nodup := by
  constructor
  · intro r
    unfold collectRoles
    rw [mem_uniq, List.mem_append]
    by_cases hcid : clientID = ""
    · simp [hcid]
      tauto
    · simp only [hcid, if_pos, ne_eq, not_false_iff, if_true]
      cases hlk : claims.resourceAccess.lookup clientID with
      | none => simp [hlk]; tauto
      | some ra => simp [hlk]; tauto
  · exact nodup_uniqAux _ _

/-- Claim C8: the any-of role gate allows exactly when the intersection of
the principal role set and the allowed set is nonempty; a principal with
only the student role is denied against the admin set, one holding both
student and admin is allowed. -/
theorem hasAnyRole_spec :
    (∀ (userRoles anyOf : List String),
       hasAnyRole userRoles anyOf = true ↔ ∃ r, r ∈ anyOf ∧ r ∈ userRoles)
    ∧ hasAnyRole ["student"] ["admin"] = false
    ∧ hasAnyRole ["student", "admin"] ["admin"] = true := by
  refine ⟨?_, by decide, by decide⟩
  intro userRoles anyOf
  simp [hasAnyRole, List.any_eq_true, List.contains]
  try tauto

/-! ## Token extraction and the role gate (internal/authmw/keycloak.go) -/

/-- Embedding of extractAccessToken (keycloak.go): prefer the
Authorization header when it carries a bearer prefix
(case-insensitively), dropping the first seven characters and trimming;
otherwise fall back to a nonempty access_token cookie; otherwise fail. -/
def extractAccessToken (authzHeader : String) (cookie : Option String) : Option String :=
  if "bearer ".isPrefixOf authzHeader.toLower then
    some (authzHeader.drop 7).trim
  else
    match cookie with
    | some c => if c ≠ "" then some c else none
    | none => none

/-- Outcome of the RequireRoles middleware for one request: either the
chain is aborted with an HTTP status and a JSON error message, or the
request proceeds to the handler carrying the resolved role list. -/
inductive GateOutcome where
  | abortWith (status : Nat) (msg : String)
  | next (roles : List String)
deriving DecidableEq

/-- Embedding of the RequireRoles middleware body (keycloak.go): a missing
token aborts with 401 and the extraction error message; a token rejected
by jwt.ParseWithClaims aborts with 401 and a generic message; otherwise
roles are collected and the any-of check either aborts with 403 or lets
the request through.  The parse outcome is a parameter here because the
parsing itself is done by the golang-jwt library; its checks are modelled
separately below. -/
def requireRolesStep (extracted : Option String) (parsed : Option KCClaims)
    (clientID : String) (anyOf : List String) : GateOutcome :=
  match extracted with
  | none => .abortWith 401 "missing access token"
  | some _ =>
    match parsed with
    | none => .abortWith 401 "invalid token"
    | some claims =>
      let roles := collectRoles claims clientID
      if hasAnyRole roles anyOf then .next roles
      else .abortWith 403 "insufficient role"

/-- Claim C9: the two denial outcomes are distinguished: absence of an
authenticated principal (no token, or a token the verifier rejects) aborts
with 401, while a valid principal whose resolved roles do not meet the
gate aborts with 403; a principal meeting the gate passes through. -/
theorem requireRoles_distinguishes (clientID : String) (anyOf : List String) :
    (∀ parsed, requireRolesStep none parsed clientID anyOf
        = .abortWith 401 "missing access token")
  ∧ (∀ t : String, requireRolesStep (some t) none clientID anyOf
        = .abortWith 401 "invalid token")
  ∧ (∀ (t : String) (claims : KCClaims),
        hasAnyRole (collectRoles claims clientID) anyOf = false →
        requireRolesStep (some t) (some claims) clientID anyOf
          = .abortWith 403 "insufficient role")
  ∧ (∀ (t : String) (claims : KCClaims),
        hasAnyRole (collectRoles claims clientID) anyOf = true →
        requireRolesStep (some t) (some claims) clientID anyOf
          = .next (collectRoles claims clientID)) := by
  refine ⟨fun parsed => rfl, fun t => rfl, ?_, ?_⟩
  · intro t claims h
    simp [requireRolesStep, h]
  · intro t claims h
    simp [requireRolesStep, h]

/-- Concrete claims payload used to instantiate gate theorems: a student
principal with no client-scoped roles. -/
def studentClaims : KCClaims :=
  { preferredUsername := "alice"
    email := "alice@example.org"
    emailVerified := true
    subject := "abc-123"
    realmRoles := ["student"]
    resourceAccess := [] }

theorem requireRoles_distinguishes_witness :
    requireRolesStep (some "tok") (some studentClaims) "front" ["admin"]
      = .abortWith 403 "insufficient role" :=
  (requireRoles_distinguishes "front" ["admin"]).2.2.1 "tok" studentClaims (by decide)

/-! ## Token verification (modelled; configuration from the source)

The token parsing and validation itself is performed by the external
golang-jwt library, invoked in RequireRoles (keycloak.go) as
jwt.ParseWithClaims with the option values found in the source:
WithValidMethods is the list containing exactly RS256, WithIssuer and
WithAudience carry the configured strings, and WithLeeway carries the
Leeway field set to 30 seconds in NewKeycloakAuth. -/

/-- The signing-algorithm allow-list passed to jwt.WithValidMethods in
RequireRoles (keycloak.go): exactly RS256. -/
def validMethods : List String := ["RS256"]

/-- The clock-skew leeway in seconds: NewKeycloakAuth (keycloak.go) sets
Leeway to 30 seconds, passed to jwt.WithLeeway. -/
def leewaySeconds : Int := 30

/-- The relevant data of a presented token for validation: its declared
algorithm, whether its signature verifies under the key named by its kid,
its registered claims.  Times are unix seconds. -/
structure TokenData where
  alg : String
  sigValidUnderKey : Bool
  issuer : String
  audience : List String
  exp : Int
  nbf : Int

/-- Internal verification error kinds (spec section 4.2: distinguishable
internally, all surfaced to the caller as a generic 401). -/
inductive VerifyError where
  | keyNotFound
  | badAlgorithm
  | badSignature
  | badIssuer
  | badAudience
  | expired
  | notYetValid
deriving DecidableEq

/-- Modelled from the spec: the validation pipeline of the external
golang-jwt library (not under src), configured by RequireRoles
(keycloak.go).  The library checks the declared algorithm against
WithValidMethods before invoking the key function; then the key lookup,
the signature, exact issuer equality, audience containment, and the
expiry and not-before claims with the configured leeway (a token passes
the expiry check exactly when now is before exp plus leeway, and the
not-before check when nbf minus leeway is not after now). -/
def verifyToken (keyFound : Bool) (tok : TokenData)
    (cfgIssuer cfgAudience : String) (now : Int) : Except VerifyError Unit :=
  if tok.alg ∉ validMethods then .error .badAlgorithm
  else if ¬ keyFound then .error .keyNotFound
  else if ¬ tok.sigValidUnderKey then .error .badSignature
  else if tok.issuer ≠ cfgIssuer then .error .badIssuer
  else if cfgAudience ∉ tok.audience then .error .badAudience
  else if ¬ (now < tok.exp + leewaySeconds) then .error .expired
  else if ¬ (tok.nbf ≤ now + leewaySeconds) then .error .notYetValid
  else .ok ()

/-- The parse outcome fed to the gate: claims are produced exactly when
verification succeeds (jwt.ParseWithClaims returns an error otherwise and
RequireRoles aborts with 401). -/
def parseOutcome (keyFound : Bool) (tok : TokenData) (claims : KCClaims)
    (cfgIssuer cfgAudience : String) (now : Int) : Option KCClaims :=
  match verifyToken keyFound tok cfgIssuer cfgAudience now with
  | .error _ => none
  | .ok _ => some claims

/-- Claim C5: a token whose declared signing algorithm is not on the
allow-list (exactly RS256) fails verification with the algorithm error, no
matter how the key lookup, signature, issuer, audience and validity window
would have fared, and the gate rejects the request with 401. -/
theorem unlisted_algorithm_rejected (keyFound : Bool) (tok : TokenData)
    (claims : KCClaims) (iss aud : String) (now : Int)
    (clientID : String) (anyOf : List String) (t : String)
    (halg : tok.alg ∉ validMethods) :
    verifyToken keyFound tok iss aud now = .error .badAlgorithm
    ∧ requireRolesStep (some t) (parseOutcome keyFound tok claims iss aud now)
        clientID anyOf = .abortWith 401 "invalid token" := by
  have h1 : verifyToken keyFound tok iss aud now = .error .badAlgorithm := by
    simp [verifyToken, halg]
  exact ⟨h1, by simp [parseOutcome, h1, requireRolesStep]⟩

/-- Concrete token declaring HS256, otherwise fully valid. -/
def hs256Token : TokenData :=
  { alg := "HS256"
    sigValidUnderKey := true
    issuer := "https://kc/realms/pms"
    audience := ["front"]
    exp := 1000
    nbf := 0 }

theorem unlisted_algorithm_rejected_witness :
    verifyToken true hs256Token "https://kc/realms/pms" "front" 500
        = .error .badAlgorithm
    ∧ requireRolesStep (some "tok")
        (parseOutcome true hs256Token studentClaims "https://kc/realms/pms" "front" 500)
        "front" ["student"] = .abortWith 401 "invalid token" :=
  unlisted_algorithm_rejected true hs256Token studentClaims
    "https://kc/realms/pms" "front" 500 "front" ["student"] "tok" (by decide)

/-- Claim C6: with the configured leeway of exactly 30 seconds, an
otherwise-valid token whose expiry lies less than 30 seconds in the past
passes verification, and one whose expiry lies more than 30 seconds in
the past fails with the expiry error. -/
theorem leeway_boundary (keyFound : Bool) (tok : TokenData)
    (iss aud : String) (now : Int)
    (halg : tok.alg ∈ validMethods) (hkey : keyFound = true)
    (hsig : tok.sigValidUnderKey = true) (hiss : tok.issuer = iss)
    (haud : aud ∈ tok.audience) (hnbf : tok.nbf ≤ now + leewaySeconds) :
    leewaySeconds = 30
    ∧ (now - tok.exp < 30 → verifyToken keyFound tok iss aud now = .ok ())
    ∧ (now - tok.exp > 30 →
        verifyToken keyFound tok iss aud now = .error .expired) := by
  refine ⟨rfl, ?_, ?_⟩
  · intro h
    have hexp : now < tok.exp + leewaySeconds := by unfold leewaySeconds; omega
    simp [verifyToken, halg, hkey, hsig, hiss, haud, hexp, hnbf]
  · intro h
    have hexp : ¬ (now < tok.exp + leewaySeconds) := by unfold leewaySeconds; omega
    simp [verifyToken, halg, hkey, hsig, hiss, haud, hexp]

/-- Concrete otherwise-valid token with expiry at time zero. -/
def expiringToken : TokenData :=
  { alg := "RS256"
    sigValidUnderKey := true
    issuer := "https://kc/realms/pms"
    audience := ["front"]
    exp := 0
    nbf := -100 }

theorem leeway_boundary_witness :
    verifyToken true expiringToken "https://kc/realms/pms" "front" 29 = .ok ()
    ∧ verifyToken true expiringToken "https://kc/realms/pms" "front" 31
        = .error .expired :=
  ⟨(leeway_boundary true expiringToken "https://kc/realms/pms" "front" 29
      (by decide) rfl rfl rfl (by decide) (by decide)).2.1 (by decide),
   (leeway_boundary true expiringToken "https://kc/realms/pms" "front" 31
      (by decide) rfl rfl rfl (by decide) (by decide)).2.2 (by decide)⟩

/-! ## Key-set cache (modelled; configuration from the source)

NewKeycloakAuth (keycloak.go) constructs the JWKS cache through the
external keyfunc library with RefreshInterval one hour, RefreshRateLimit
five minutes and RefreshTimeout ten seconds; the get-with-refresh logic
itself lives in that library, not under src. -/

/-- The miss-triggered refresh rate limit in seconds: NewKeycloakAuth
(keycloak.go) sets RefreshRateLimit to five minutes. -/
def refreshRateLimitSeconds : Int := 5 * 60

/-- The key-set cache state: the cached kid-to-key association list and
the time of the last miss-triggered refresh (unix seconds). -/
structure KeySetCache where
  keys : List (String × String)
  lastMissRefresh : Int

/-- Result of one cache lookup: the outcome, whether a refresh against
the remote key-distribution endpoint was triggered, and the cache after
the call. -/
structure CacheGetResult where
  key : Option String
  refreshed : Bool
  cache : KeySetCache

/-- Modelled from the spec: the get operation of the JWKS key-set cache
(implemented by the external keyfunc library, not under src).  A hit
returns the cached key; a miss triggers a refresh from the remote key set
when the rate-limit window has elapsed since the last miss-triggered
refresh and retries the lookup once against the fresh set; otherwise, or
when the kid is still absent after the refresh, it reports the key as not
found. -/
def cacheGet (c : KeySetCache) (remote : List (String × String))
    (kid : String) (now : Int) : CacheGetResult :=
  match c.keys.lookup kid with
  | some k => ⟨some k, false, c⟩
  | none =>
    if c.lastMissRefresh + refreshRateLimitSeconds ≤ now then
      let c2 : KeySetCache := ⟨remote, now⟩
      ⟨c2.keys.lookup kid, true, c2⟩
    else ⟨none, false, c⟩

/-- Claim C4: on a miss, a refresh is triggered exactly when the
five-minute rate-limit window has elapsed, after which the lookup is
retried once against the refreshed set; when the kid is still missing (or
the window has not elapsed) the result is not-found, which the verifier
surfaces as a 401 authentication failure, never a crash. -/
theorem cacheGet_miss_spec (c : KeySetCache) (remote : List (String × String))
    (kid : String) (now : Int)
    (hmiss : c.keys.lookup kid = none) :
    refreshRateLimitSeconds = 5 * 60
    ∧ (c.lastMissRefresh + refreshRateLimitSeconds ≤ now →
        cacheGet c remote kid now
          = ⟨remote.lookup kid, true, ⟨remote, now⟩⟩)
    ∧ (now < c.lastMissRefresh + refreshRateLimitSeconds →
        cacheGet c remote kid now = ⟨none, false, c⟩)
    ∧ (∀ (tok : TokenData) (claims : KCClaims) (iss aud t clientID : String)
          (anyOf : List String),
        requireRolesStep (some t) (parseOutcome false tok claims iss aud now)
          clientID anyOf = .abortWith 401 "invalid token") := by
  refine ⟨rfl, ?_, ?_, ?_⟩
  · intro h
    simp [cacheGet, hmiss, h]
  · intro h
    have h2 : ¬ (c.lastMissRefresh + refreshRateLimitSeconds ≤ now) := by omega
    simp [cacheGet, hmiss, h2]
  · intro tok claims iss aud t clientID anyOf
    have : ∃ e, verifyToken false tok iss aud now = .error e := by
      by_cases halg : tok.alg ∈ validMethods
      · exact ⟨.keyNotFound, by simp [verifyToken, halg]⟩
      · exact ⟨.badAlgorithm, by simp [verifyToken, halg]⟩
    obtain ⟨e, he⟩ := this
    simp [parseOutcome, he, requireRolesStep]

/-- Concrete cache whose only key has another kid, with the last
miss-triggered refresh at time zero. -/
def demoCache : KeySetCache := ⟨[("oldkid", "k1")], 0⟩

theorem cacheGet_miss_spec_witness :
    cacheGet demoCache [("newkid", "k2")] "newkid" 400
      = ⟨some "k2", true, ⟨[("newkid", "k2")], 400⟩⟩ := by
  have h := (cacheGet_miss_spec demoCache [("newkid", "k2")] "newkid" 400
    (by decide)).2.1 (by decide)
  rw [h]
  rfl

/-! ## Bounded-concurrency fan-out (handlers.go and adminHandlers.go)

The three aggregation handlers (dashboardHandler, myTeamsHandler,
adminTeamsHandler) share the same fan-out shape: a buffered channel of
capacity six used as a counting semaphore, a result channel buffered to
the number of teams, one goroutine per team holding a permit for the
duration of its TeamTasks call. -/

/-- The concurrency cap: the semaphore channel is allocated with capacity
six in all three handlers. -/
def fanoutCap : Nat := 6

/-- State of one fan-out over targets numbered below T in submission
order: how many targets the main loop has launched, the set of
launched-but-unfinished targets (each holding one permit), and the set of
finished targets (permit released, result buffered). -/
structure AggState where
  nextIdx : Nat
  inFlight : Finset Nat
  finished : Finset Nat
deriving DecidableEq

/-- Embedding of the fan-out loop: the main loop acquires a permit (only
possible while fewer than K calls hold one) and launches the next target
in submission order; any in-flight call may finish, releasing its permit.
The result channel is buffered to the number of targets, so a finishing
call never blocks. -/
inductive AggStep (T K : Nat) : AggState → AggState → Prop
  | launch (s : AggState) (h1 : s.nextIdx < T) (h2 : s.inFlight.card < K) :
      AggStep T K s ⟨s.nextIdx + 1, insert s.nextIdx s.inFlight, s.finished⟩
  | finish (s : AggState) (i : Nat) (h : i ∈ s.inFlight) :
      AggStep T K s ⟨s.nextIdx, s.inFlight.erase i, insert i s.finished⟩

/-- The initial state of a job: nothing launched. -/
def aggInit : AggState := ⟨0, ∅, ∅⟩

/-- Reachability from the initial state for a job of T targets, cap K. -/
def AggReachable (T K : Nat) (s : AggState) : Prop :=
  Relation.ReflTransGen (AggStep T K) aggInit s

/-- A stuck state: no launch and no finish is possible (the loop is done
and every call has returned). -/
def AggStuck (T K : Nat) (s : AggState) : Prop :=
  ∀ s2, ¬ AggStep T K s s2

/-- Inductive invariant of the fan-out: at most K permits are held, the
loop index never passes T, the launched targets are exactly those below
the loop index, and no target is both in flight and finished. -/
def AggInv (T K : Nat) (s : AggState) : Prop :=
  s.inFlight.card ≤ K ∧ s.nextIdx ≤ T
    ∧ s.inFlight ∪ s.finished = Finset.range s.nextIdx
    ∧ Disjoint s.inFlight s.finished

theorem aggInv_init (T K : Nat) : AggInv T K aggInit := by
  refine ⟨by simp [aggInit], by simp [aggInit], by simp [aggInit],
    by simp [aggInit]⟩

theorem aggInv_step {T K : Nat} {s s2 : AggState} (hs : AggInv T K s)
    (h : AggStep T K s s2) : AggInv T K s2 := by
  obtain ⟨hcard, hidx, hun, hdisj⟩ := hs
  cases h with
  | launch h1 h2 =>
    have hni : s.nextIdx ∉ s.inFlight := by
      intro hc
      have hmem : s.nextIdx ∈ Finset.range s.nextIdx := by
        rw [← hun]; exact Finset.mem_union_left _ hc
      simp at hmem
    have hnf : s.nextIdx ∉ s.finished := by
      intro hc
      have hmem : s.nextIdx ∈ Finset.range s.nextIdx := by
        rw [← hun]; exact Finset.mem_union_right _ hc
      simp at hmem
    refine ⟨?_, h1, ?_, ?_⟩
    · rw [Finset.card_insert_of_not_mem hni]; omega
    · rw [Finset.insert_union, hun, Finset.range_succ]
    · rw [Finset.disjoint_insert_left]
      exact ⟨hnf, hdisj⟩
  | finish i hi =>
    refine ⟨?_, hidx, ?_, ?_⟩
    · exact le_trans (Finset.card_erase_le) hcard
    · rw [Finset.union_insert, ← Finset.insert_union, Finset.insert_erase hi, hun]
    · rw [Finset.disjoint_insert_right]
      exact ⟨Finset.not_mem_erase i _,
        Finset.disjoint_of_subset_left (Finset.erase_subset _ _) hdisj⟩

theorem aggInv_reachable {T K : Nat} {s : AggState}
    (h : AggReachable T K s) : AggInv T K s := by
  induction h with
  | refl => exact aggInv_init T K
  | tail hr hstep ih => exact aggInv_step ih hstep

theorem aggStuck_done {T K : Nat} {s : AggState} (hK : 0 < K)
    (hreach : AggReachable T K s) (hstuck : AggStuck T K s) :
    s.finished = Finset.range T := by
  obtain ⟨hcard, hidx, hun, hdisj⟩ := aggInv_reachable hreach
  have hempty : s.inFlight = ∅ := by
    by_contra hne
    obtain ⟨i, hi⟩ := Finset.nonempty_iff_ne_empty.mpr hne
    exact hstuck _ (AggStep.finish s i hi)
  have hidxT : s.nextIdx = T := by
    by_contra hne
    have h1 : s.nextIdx < T := lt_of_le_of_ne hidx hne
    have h2 : s.inFlight.card < K := by rw [hempty]; simpa using hK
    exact hstuck _ (AggStep.launch s h1 h2)
  rw [hempty] at hun
  simp only [Finset.empty_union] at hun
  rw [hun, hidxT]

/-- Claim C1: with the cap of six permits, in every reachable state of a
fan-out over T targets at most six downstream calls are in flight, and
when the job can make no further move (every call returned) every one of
the T targets has been launched and finished — the cap throttles, it does
not skip work. -/
theorem fanout_bounded_and_complete (T : Nat) (s : AggState)
    (h : AggReachable T fanoutCap s) :
    s.inFlight.card ≤ 6
    ∧ (AggStuck T fanoutCap s → s.finished = Finset.range T) :=
  ⟨(aggInv_reachable h).1,
   fun hstuck => aggStuck_done (by decide) h hstuck⟩

theorem fanout_bounded_and_complete_witness :
    ((⟨1, ∅, {0}⟩ : AggState).inFlight.card ≤ 6
      ∧ (⟨1, ∅, {0}⟩ : AggState).finished = Finset.range 1) := by
  have s1 := AggStep.launch (T := 1) (K := fanoutCap) aggInit
    (by decide) (by decide)
  have s2 := AggStep.finish (T := 1) (K := fanoutCap)
    ⟨0 + 1, insert 0 ∅, ∅⟩ 0 (by decide)
  have hEq : (⟨0 + 1, (insert 0 (∅ : Finset Nat)).erase 0,
      insert 0 (∅ : Finset Nat)⟩ : AggState) = ⟨1, ∅, {0}⟩ := by decide
  have hreach : AggReachable 1 fanoutCap ⟨1, ∅, {0}⟩ :=
    hEq ▸ Relation.ReflTransGen.head s1 (Relation.ReflTransGen.single s2)
  have hstuck : AggStuck 1 fanoutCap ⟨1, ∅, {0}⟩ := by
    intro s2 h
    cases h with
    | launch h1 h2 => exact absurd h1 (by decide)
    | finish i hi => simp at hi
  exact ⟨(fanout_bounded_and_complete 1 _ hreach).1,
    (fanout_bounded_and_complete 1 _ hreach).2 hstuck⟩

/-! ## Drain loop of the aggregation (handlers.go 190-200,
adminHandlers.go 359-367) -/

/-- Embedding of the Task payload (front/models.go); times are unix
seconds. -/
structure Task where
  taskID : Int
  teamID : Int
  title : String
  description : String
  author : String
  assignee : String
  status : String
  deadline : Int
  priority : String
  createdAt : Int
deriving DecidableEq

/-- Embedding of the per-goroutine result record of the fan-out handlers:
the team identifier, the fetched task list, and the error of the
TeamTasks call (none on success, the error message otherwise). -/
structure FetchResult where
  teamID : Int
  tasks : List Task
  err : Option String
deriving DecidableEq

/-- Outcome of the drain loop: either an error page rendered with an HTTP
status (http.StatusBadGateway is 502), or the accumulated task list. -/
inductive DrainOutcome where
  | errorPage (status : Nat) (msg : String)
  | ok (allTasks : List Task)
deriving DecidableEq

/-- Embedding of the drain loop of dashboardHandler (handlers.go): the
caller receives the per-team results in arrival order; on the first
result whose err is non-nil it renders the error page with status 502 and
the message TaskAPI: followed by the error, returning immediately and
discarding everything accumulated so far and everything still to come;
otherwise it appends the tasks of the result and continues. -/
def drainResults : List FetchResult → List Task → DrainOutcome
  | [], acc => .ok acc
  | r :: rest, acc =>
    match r.err with
    | some e => .errorPage 502 ("TaskAPI: " ++ e)
    | none => drainResults rest (acc ++ r.tasks)

/-- The first result in drain (arrival) order carrying an error. -/
def firstFailing : List FetchResult → Option FetchResult
  | [] => none
  | r :: rest => if r.err.isSome then some r else firstFailing rest

/-- Claim C2: when any drained per-target result carries an error, the
whole aggregation resolves to the 502 error page carrying the error of
the first-drained failing target, whatever tasks were accumulated before
it — the successes are discarded. -/
theorem drain_fail_fast (rs : List FetchResult)
    (h : ∃ x ∈ rs, x.err.isSome) :
    ∃ r e, firstFailing rs = some r ∧ r ∈ rs ∧ r.err = some e ∧
      ∀ acc, drainResults rs acc = .errorPage 502 ("TaskAPI: " ++ e) := by
  induction rs with
  | nil => simp at h
  | cons x rest ih =>
    by_cases hx : x.err.isSome
    · obtain ⟨e, he⟩ := Option.isSome_iff_exists.mp hx
      refine ⟨x, e, ?_, List.mem_cons_self x rest, he, ?_⟩
      · simp [firstFailing, hx]
      · intro acc
        simp [drainResults, he]
    · have h2 : ∃ y ∈ rest, y.err.isSome := by
        obtain ⟨y, hy, hye⟩ := h
        rcases List.mem_cons.mp hy with rfl | hmem
        · exact absurd hye hx
        · exact ⟨y, hmem, hye⟩
      obtain ⟨r, e, h1, hmem, he, hdr⟩ := ih h2
      refine ⟨r, e, ?_, List.mem_cons_of_mem _ hmem, he, ?_⟩
      · simp [firstFailing, hx, h1]
      · intro acc
        have hxe : x.err = none := Option.not_isSome_iff_eq_none.mp hx
        simp only [drainResults, hxe]
        exact hdr _

/-- Five per-team results; the third carries an error, the others
succeeded with some tasks. -/
def demoFetchResults : List FetchResult :=
  [⟨1, [⟨10, 1, "t1", "", "alice", "bob", "TODO", 0, "LOW", 0⟩], none⟩,
   ⟨2, [⟨20, 2, "t2", "", "alice", "bob", "DONE", 0, "LOW", 0⟩], none⟩,
   ⟨3, [], some "timeout"⟩,
   ⟨4, [⟨40, 4, "t4", "", "alice", "bob", "TODO", 0, "LOW", 0⟩], none⟩,
   ⟨5, [], none⟩]

theorem drain_fail_fast_witness :
    drainResults demoFetchResults [] = .errorPage 502 ("TaskAPI: " ++ "timeout") := by
  obtain ⟨r, e, h1, hmem, he, hdr⟩ := drain_fail_fast demoFetchResults (by decide)
  have hff : firstFailing demoFetchResults = some ⟨3, [], some "timeout"⟩ := by decide
  rw [hff] at h1
  have hr : (⟨3, [], some "timeout"⟩ : FetchResult) = r := Option.some_inj.mp h1
  rw [← hr] at he
  have he2 : e = "timeout" := (Option.some_inj.mp he).symm
  rw [he2] at hdr
  exact hdr []

/-! ## Context passed to the downstream TeamTasks calls -/

/-- The Go context a handler passes to each downstream call: the inbound
request context carries the request cancellation signal, the background
context is never cancelled. -/
inductive GoCtx where
  | requestCtx
  | background
deriving DecidableEq

/-- Whether cancelling the inbound request cancels a downstream call made
under the given context. -/
def inheritsCancellation : GoCtx → Bool
  | .requestCtx => true
  | .background => false

/-- The context dashboardHandler passes to ds.TeamTasks for every team
(handlers.go, inside the fan-out goroutine): context.Background(). -/
def dashboardTeamTasksCtx : GoCtx := .background

/-- The context myTeamsHandler passes to ds.TeamTasks (handlers.go, whose
adjacent comment reads IMPORTANT: use request context, not
context.Background()): c.Request.Context(). -/
def myTeamsTeamTasksCtx : GoCtx := .requestCtx

/-- The context adminTeamsHandler passes to ds.TeamTasks
(adminHandlers.go): c.Request.Context(). -/
def adminTeamsTeamTasksCtx : GoCtx := .requestCtx

/-- Claim C3 (evaluation at the failing input): the per-target downstream
calls of dashboardHandler do not inherit the inbound request cancellation
signal — the handler passes the background context — although the two
sibling fan-out handlers do pass the request context. -/
theorem dashboard_ctx_not_request :
    inheritsCancellation dashboardTeamTasksCtx = false
    ∧ inheritsCancellation myTeamsTeamTasksCtx = true
    ∧ inheritsCancellation adminTeamsTeamTasksCtx = true := by decide

/-! ## Task status patch endpoint (internal/mtask) -/

/-- Embedding of validStatus (mtask): true exactly on the three valid
statuses. -/
def validStatus (status : String) : Bool :=
  status == "IN_PROGRESS" || status == "TODO" || status == "DONE"

/-- Outcome of the status-patch handler before the database call: a 400
response with a message, or the update applied with the given status. -/
inductive PatchOutcome where
  | badRequest (msg : String)
  | update (taskID : Int) (status : String)
deriving DecidableEq

/-- Embedding of handleTaskPatch (mtask): reject a missing or nonpositive
taskid with 400; then, as written in the source, reject with 400 invalid
status when validStatus(status) holds, and proceed to the update
otherwise. -/
def handleTaskPatch (taskidParsed : Option Int) (status : String) : PatchOutcome :=
  match taskidParsed with
  | none => .badRequest "taskid required"
  | some taskID =>
    if taskID ≤ 0 then .badRequest "taskid required"
    else if validStatus status then .badRequest "invalid status"
    else .update taskID status

/-- Claim C10: with a well-formed taskid, every status in the valid set
TODO, IN_PROGRESS, DONE is answered 400 invalid status without an update,
while every status outside that set proceeds to the update — the validity
check on the patch endpoint is inverted relative to the valid set. -/
theorem taskPatch_inverted_check (taskID : Int) (status : String)
    (h : 0 < taskID) :
    (status = "TODO" ∨ status = "IN_PROGRESS" ∨ status = "DONE" →
        handleTaskPatch (some taskID) status = .badRequest "invalid status")
    ∧ (¬ (status = "TODO" ∨ status = "IN_PROGRESS" ∨ status = "DONE") →
        handleTaskPatch (some taskID) status = .update taskID status) := by
  have hpos : ¬ (taskID ≤ 0) := by omega
  constructor
  · intro hs
    have hv : validStatus status = true := by
      rcases hs with rfl | rfl | rfl <;> rfl
    simp [handleTaskPatch, hpos, hv]
  · intro hs
    push_neg at hs
    obtain ⟨h1, h2, h3⟩ := hs
    have hv : validStatus status = false := by
      simp [validStatus, h1, h2, h3]
    simp [handleTaskPatch, hpos, hv]

theorem taskPatch_inverted_check_witness :
    handleTaskPatch (some 7) "DONE" = .badRequest "invalid status"
    ∧ handleTaskPatch (some 7) "BOGUS" = .update 7 "BOGUS" :=
  ⟨(taskPatch_inverted_check 7 "DONE" (by decide)).1 (Or.inr (Or.inr rfl)),
   (taskPatch_inverted_check 7 "BOGUS" (by decide)).2 (by decide)⟩

end PmsProj
